import Mathlib

/-!
Verification development for the query-optimizer phase manager
(src/mongo/db/query/optimizer/opt_phase_manager.h), the locked-collection
yield-restore callable (src/mongo/db/catalog/collection_yield_restore.cpp),
and the Azure storage-source extension
(src/third_party/wiredtiger/ext/storage_sources/azure_store/azure_storage_source.cpp).

Pure functions of the C++ sources are embedded as Lean functions; stateful
code is embedded as explicit state passing; fallible code returns
Option/Except.  Machine integers are modelled as Nat/Int (with explicit
mod 2^32 where unsigned wraparound matters).  Where only a declaration of
a component is available (the phase-manager implementation and the memo
implementation), the behaviour is modelled from the specification, and the
doc comment of the corresponding definition says so.
-/

set_option autoImplicit false

namespace MongoOpt

/-- The optimizer phases, embedded from the OPT_PHASE macro in
opt_phase_manager.h (lines 51-68): the macro lists exactly seven phases in
this textual order, and MAKE_PRINTABLE_ENUM generates the enum OptPhase
from it. -/
inductive OptPhase where
  | ConstEvalPre
  | PathFuse
  | MemoSubstitutionPhase
  | MemoExplorationPhase
  | MemoImplementationPhase
  | PathLower
  | ConstEvalPost
deriving DecidableEq, Repr

/-- The fixed phase order, as listed by the OPT_PHASE macro. -/
def allPhasesInOrder : List OptPhase :=
  [OptPhase.ConstEvalPre, OptPhase.PathFuse, OptPhase.MemoSubstitutionPhase,
   OptPhase.MemoExplorationPhase, OptPhase.MemoImplementationPhase,
   OptPhase.PathLower, OptPhase.ConstEvalPost]

/-- Modelled from the spec: the per-phase tree transformations that the
phase manager orchestrates (the implementation file of OptPhaseManager is
not part of the sources; only opt_phase_manager.h is).  Every phase other
than MemoImplementationPhase is a total transformation of the tree; the
MemoImplementationPhase (the cost-based physical search) may fail to find
a physical plan satisfying the required top-level properties, which is the
sole recoverable planning failure. -/
structure PhaseImpls (T : Type) where
  structural : OptPhase → T → T
  physicalSearch : T → Option T

/-- Modelled from the spec: applying one phase to the tree.  Only the
MemoImplementationPhase can fail (return none). -/
def applyPhase {T : Type} (impls : PhaseImpls T) (p : OptPhase) (t : T) : Option T :=
  match p with
  | OptPhase.MemoImplementationPhase => impls.physicalSearch t
  | _ => some (impls.structural p t)

/-- Modelled from the spec: the phases actually run for a configured phase
set are the ones present in the set, in the fixed relative order of
allPhasesInOrder; any phase absent from the set is skipped entirely. -/
def phasesToRun (phaseSet : List OptPhase) : List OptPhase :=
  allPhasesInOrder.filter (fun p => p ∈ phaseSet)

/-- Modelled from the spec: running a list of phases over the tree,
returning the trace of phases actually executed together with the final
tree (none when the physical search failed; execution stops there). -/
def runPhaseList {T : Type} (impls : PhaseImpls T) :
    List OptPhase → T → List OptPhase × Option T
  | [], t => ([], some t)
  | p :: rest, t =>
    match applyPhase impls p t with
    | none => ([p], none)
    | some t2 =>
      let r := runPhaseList impls rest t2
      (p :: r.1, r.2)

/-- Modelled from the spec: OptPhaseManager::optimizeNoAssert.  Runs the
configured phases in order; returns true and the rewritten tree on
success; returns false (the input tree left as-is in the model, but
unspecified by the contract) when the pipeline cannot find any physical
plan satisfying the required properties. -/
def optimizeNoAssert {T : Type} (impls : PhaseImpls T) (phaseSet : List OptPhase)
    (t : T) : Bool × T :=
  match (runPhaseList impls (phasesToRun phaseSet) t).2 with
  | some t2 => (true, t2)
  | none => (false, t)

/-- Outcome of OptPhaseManager::optimize: either the pipeline completed and
the input tree was replaced by the optimized tree, or the process aborted
(tassert). -/
inductive OptimizeOutcome (T : Type) where
  | completed (t : T)
  | aborted
deriving DecidableEq, Repr

/-- Modelled from the spec: OptPhaseManager::optimize.  Identical effect to
optimizeNoAssert on success; aborts the process (tassert) whenever
optimizeNoAssert would report failure. -/
def optimize {T : Type} (impls : PhaseImpls T) (phaseSet : List OptPhase)
    (t : T) : OptimizeOutcome T :=
  match optimizeNoAssert impls phaseSet t with
  | (true, t2) => OptimizeOutcome.completed t2
  | (false, _) => OptimizeOutcome.aborted

/-- Folding the structural transformations of a (failure-free) phase list
over the tree. -/
def runStructural {T : Type} (impls : PhaseImpls T) (phases : List OptPhase) (t : T) : T :=
  phases.foldl (fun acc p => impls.structural p acc) t

/-- The phases that run before the physical search. -/
def prePhysicalPhases (phaseSet : List OptPhase) : List OptPhase :=
  (phasesToRun phaseSet).takeWhile (fun p => p ≠ OptPhase.MemoImplementationPhase)

theorem runPhaseList_no_impl {T : Type} (impls : PhaseImpls T) (phases : List OptPhase)
    (t : T) (h : OptPhase.MemoImplementationPhase ∉ phases) :
    runPhaseList impls phases t = (phases, some (runStructural impls phases t)) := by
  induction phases generalizing t with
  | nil => rfl
  | cons p rest ih =>
    have hp : p ≠ OptPhase.MemoImplementationPhase := by
      intro hcontra
      exact h (hcontra ▸ List.mem_cons_self p rest)
    have hrest : OptPhase.MemoImplementationPhase ∉ rest := by
      intro hcontra
      exact h (List.mem_cons_of_mem p hcontra)
    have happ : applyPhase impls p t = some (impls.structural p t) := by
      cases p <;> simp [applyPhase] at hp ⊢
    simp only [runPhaseList, happ, ih (impls.structural p t) hrest, runStructural,
      List.foldl_cons]

theorem runStructural_cons {T : Type} (impls : PhaseImpls T) (p : OptPhase)
    (phases : List OptPhase) (t : T) :
    runStructural impls (p :: phases) t = runStructural impls phases (impls.structural p t) :=
  rfl

theorem runPhaseList_none_iff {T : Type} (impls : PhaseImpls T) (phases : List OptPhase)
    (t : T) (hcount : List.count OptPhase.MemoImplementationPhase phases ≤ 1) :
    (runPhaseList impls phases t).2 = none ↔
      (OptPhase.MemoImplementationPhase ∈ phases ∧
        impls.physicalSearch
          (runStructural impls
            (phases.takeWhile (fun p => p ≠ OptPhase.MemoImplementationPhase)) t) = none) := by
  induction phases generalizing t with
  | nil => simp [runPhaseList, runStructural]
  | cons p rest ih =>
    by_cases hp : p = OptPhase.MemoImplementationPhase
    · subst hp
      have hrest : OptPhase.MemoImplementationPhase ∉ rest := by
        intro hmem
        have h1 : 1 ≤ List.count OptPhase.MemoImplementationPhase rest :=
          List.one_le_count_iff.mpr hmem
        have h2 : 2 ≤ List.count OptPhase.MemoImplementationPhase
            (OptPhase.MemoImplementationPhase :: rest) := by
          rw [List.count_cons_self]
          omega
        omega
      cases hsearch : impls.physicalSearch t with
      | none =>
        simp [runPhaseList, applyPhase, hsearch, runStructural, List.takeWhile]
      | some t2 =>
        have hnone := runPhaseList_no_impl impls rest t2 hrest
        simp [runPhaseList, applyPhase, hsearch, hnone, runStructural, List.takeWhile]
    · have hcount2 : List.count OptPhase.MemoImplementationPhase rest ≤ 1 := by
        rw [List.count_cons] at hcount
        omega
      have happ : applyPhase impls p t = some (impls.structural p t) := by
        cases p <;> simp [applyPhase] at hp ⊢
      have hstep : (runPhaseList impls (p :: rest) t).2 =
          (runPhaseList impls rest (impls.structural p t)).2 := by
        simp [runPhaseList, happ]
      have htake : List.takeWhile (fun q => q ≠ OptPhase.MemoImplementationPhase) (p :: rest) =
          p :: List.takeWhile (fun q => q ≠ OptPhase.MemoImplementationPhase) rest := by
        simp [List.takeWhile_cons, hp]
      have hne : OptPhase.MemoImplementationPhase ≠ p := fun h => hp h.symm
      rw [hstep, ih (impls.structural p t) hcount2, htake, runStructural_cons]
      simp [List.mem_cons, hne]

theorem count_impl_phasesToRun (phaseSet : List OptPhase) :
    List.count OptPhase.MemoImplementationPhase (phasesToRun phaseSet) ≤ 1 := by
  have hsub : List.Sublist (phasesToRun phaseSet) allPhasesInOrder :=
    List.filter_sublist allPhasesInOrder
  have hle := List.Sublist.count_le hsub OptPhase.MemoImplementationPhase
  have hone : List.count OptPhase.MemoImplementationPhase allPhasesInOrder = 1 := by decide
  omega

/-- A logical expression of the optimizer IR for purposes of the memo model:
a tree of leaf values (variables/constants), references to memo groups, and
operator nodes.  Structural identity is plain equality of these trees
(same shape, same leaf values, same group references). -/
inductive LogicalExpr where
  | leaf (value : Nat)
  | groupRef (gid : Nat)
  | unary (tag : Nat) (child : LogicalExpr)
  | binary (tag : Nat) (left right : LogicalExpr)
deriving DecidableEq, Repr

/-- Modelled from the spec: the memo as the ordered list of groups created
by insertion, each group represented by the member expression that created
it (insertion is the only group-creating operation modelled here; groups
gain further members only through rewrites, which are out of scope).  The
group id of a group is its index in this list.  This definition scans the
groups for a structurally equal member, returning the first matching
group's id. -/
def findGroup : List LogicalExpr → LogicalExpr → Option Nat
  | [], _ => none
  | g :: rest, e => if g = e then some 0 else (findGroup rest e).map (fun i => i + 1)

/-- Modelled from the spec: Memo::insert.  Structurally hashes/compares the
expression; if an equivalent expression already exists in some group,
returns that group's id without adding a duplicate; otherwise creates a
new group holding the expression and returns the new id. -/
def memoInsert (m : List LogicalExpr) (e : LogicalExpr) : Nat × List LogicalExpr :=
  match findGroup m e with
  | some i => (i, m)
  | none => (m.length, m ++ [e])

theorem findGroup_eq_some {m : List LogicalExpr} {e : LogicalExpr} {i : Nat}
    (h : findGroup m e = some i) : m.get? i = some e := by
  induction m generalizing i with
  | nil => simp [findGroup] at h
  | cons g rest ih =>
    by_cases hg : g = e
    · simp [findGroup, hg] at h
      subst hg
      simp [← h]
    · simp [findGroup, hg] at h
      obtain ⟨j, hj, rfl⟩ := h
      simpa using ih hj

theorem findGroup_lt_length {m : List LogicalExpr} {e : LogicalExpr} {i : Nat}
    (h : findGroup m e = some i) : i < m.length := by
  have hget := findGroup_eq_some h
  exact List.get?_eq_some.mp hget |>.1

theorem findGroup_append_self {m : List LogicalExpr} {e : LogicalExpr}
    (h : findGroup m e = none) : findGroup (m ++ [e]) e = some m.length := by
  induction m with
  | nil => simp [findGroup]
  | cons g rest ih =>
    by_cases hg : g = e
    · simp [findGroup, hg] at h
    · simp [findGroup, hg] at h ⊢
      exact ih h

/-- The record of which C++ special member functions a class declares as
deleted or defaulted/available. -/
inductive SpecialMemberStatus where
  | defaulted
  | deleted
deriving DecidableEq, Repr

/-- The copy/move special members of a C++ class. -/
structure SpecialMembers where
  copyConstructor : SpecialMemberStatus
  moveConstructor : SpecialMemberStatus
  copyAssignment : SpecialMemberStatus
  moveAssignment : SpecialMemberStatus
deriving DecidableEq, Repr

/-- Embedded from opt_phase_manager.h lines 92-95: the copy constructor and
copy assignment operator are deleted, the move constructor is defaulted,
and the move assignment operator is deleted. -/
def optPhaseManagerSpecialMembers : SpecialMembers :=
  { copyConstructor := SpecialMemberStatus.deleted
    moveConstructor := SpecialMemberStatus.defaulted
    copyAssignment := SpecialMemberStatus.deleted
    moveAssignment := SpecialMemberStatus.deleted }

/-- How a C++ constructor parameter or data member is passed/held. -/
inductive ParamPassing where
  | byValue
  | byReference
  | byUniquePtr
deriving DecidableEq, Repr

/-- A constructor parameter: its name and how it is passed. -/
structure CtorParam where
  pname : String
  passing : ParamPassing
deriving DecidableEq, Repr

/-- Embedded from the OptPhaseManager constructor declaration,
opt_phase_manager.h lines 78-89: twelve parameters, of which only prefixId
is taken by (non-const) reference; the estimators are taken by unique_ptr
(ownership transfer); everything else is taken by value. -/
def optPhaseManagerCtorParams : List CtorParam :=
  [CtorParam.mk "phaseSet" ParamPassing.byValue,
   CtorParam.mk "prefixId" ParamPassing.byReference,
   CtorParam.mk "requireRID" ParamPassing.byValue,
   CtorParam.mk "metadata" ParamPassing.byValue,
   CtorParam.mk "explorationCE" ParamPassing.byUniquePtr,
   CtorParam.mk "substitutionCE" ParamPassing.byUniquePtr,
   CtorParam.mk "costEstimator" ParamPassing.byUniquePtr,
   CtorParam.mk "pathToInterval" ParamPassing.byValue,
   CtorParam.mk "constFold" ParamPassing.byValue,
   CtorParam.mk "supportExplain" ParamPassing.byValue,
   CtorParam.mk "debugInfo" ParamPassing.byValue,
   CtorParam.mk "queryHints" ParamPassing.byValue]

/-- Embedded from opt_phase_manager.h lines 237-238: the data member
_prefixId is declared as a reference (PrefixId&) with the comment
"We don't own this." — the instance stores the reference, never a copy. -/
def optPhaseManagerPrefixIdMember : ParamPassing := ParamPassing.byReference

/-- Modelled from the spec: the prefix/name generator (PrefixId, whose own
implementation is not among the sources) is a monotonically increasing
counter minting globally-unique synthetic variable names. -/
def getNextId (counter : Nat) (base : String) : String × Nat :=
  (base ++ "_" ++ toString counter, counter + 1)

/-- The caller-visible state during an optimization run: the shared name
counter (owned by the caller, borrowed by reference by the optimizer
instance) plus whatever other state the caller owns. -/
structure CallerState (A : Type) where
  prefixIdCounter : Nat
  otherState : A

/-- Modelled from the spec: minting a synthetic name during optimization
through the borrowed generator; it threads the caller's counter. -/
def mintName {A : Type} (s : CallerState A) (base : String) : String × CallerState A :=
  let r := getNextId s.prefixIdCounter base
  (r.1, { s with prefixIdCounter := r.2 })

end MongoOpt

namespace MongoCatalog

/-- A collection as seen by the yield-restore callable: its namespace
string and whether it uses capped snapshots. -/
structure Collection where
  ns : String
  usesCappedSnapshots : Bool
deriving DecidableEq, Repr

/-- The slice of the operation context consulted by
LockedCollectionYieldRestore: the lock state per namespace and the
collection catalog lookup by UUID (UUIDs modelled as Nat). -/
structure OperationContext where
  isCollectionLockedForModeIS : String → Bool
  lookupCollectionByUUIDForRead : Nat → Option Collection

/-- The caller-visible side effects of a successful restore: whether the
capped snapshot was re-established and whether the read source was
re-checked (SnapshotHelper::changeReadSourceIfNeeded). -/
structure RestoreEffects where
  establishedCappedSnapshot : Bool
  checkedReadSource : Bool
deriving DecidableEq, Repr

/-- Embedded from LockedCollectionYieldRestore::LockedCollectionYieldRestore
(collection_yield_restore.cpp lines 37-43): captures the namespace of the
collection given at construction (empty when given a null collection), and
asserts the collection lock is held whenever the namespace is non-empty.
The error value models the invariant firing (process abort). -/
def lockedCollectionYieldRestoreCtor (opCtx : OperationContext)
    (coll : Option Collection) : Except Unit String :=
  let nss := match coll with
    | some c => c.ns
    | none => ""
  if ¬nss.isEmpty ∧ ¬opCtx.isCollectionLockedForModeIS nss then Except.error ()
  else Except.ok nss

/-- Embedded from LockedCollectionYieldRestore::operator()
(collection_yield_restore.cpp lines 45-82): asserts a valid (non-empty)
captured namespace and that the collection lock is held; fetches the
collection by UUID; returns null if the collection was dropped during
yield or if its namespace differs from the captured one (rename during
yield); otherwise re-establishes the capped snapshot when the collection
uses capped snapshots, re-checks the read source, and returns the
collection.  The error value models an invariant firing (process abort). -/
def lockedCollectionYieldRestoreCall (opCtx : OperationContext) (nss : String)
    (uuid : Nat) : Except Unit (Option Collection × RestoreEffects) :=
  if nss.isEmpty then Except.error ()
  else if ¬opCtx.isCollectionLockedForModeIS nss then Except.error ()
  else
    match opCtx.lookupCollectionByUUIDForRead uuid with
    | none => Except.ok (none, RestoreEffects.mk false false)
    | some c =>
      if c.ns ≠ nss then Except.ok (none, RestoreEffects.mk false false)
      else Except.ok (some c, RestoreEffects.mk c.usesCappedSnapshots true)

end MongoCatalog

namespace AzureStore

/-- POSIX errno values used by the Azure storage source (Linux values). -/
def EINVAL : Int := 22

def ENOENT : Int := 2

def ENOMEM : Int := 12

def ENOTSUP : Int := 95

/-- An open file handle of the Azure file system: the object name and the
reference count (a uint32 in the source). -/
structure AzureFileHandle where
  name : String
  reference_count : Nat
deriving DecidableEq, Repr

/-- The mutable state of an azure_file_system relevant to the file-handle
operations: the list of active file handles (azure_fh). -/
abbrev AzureHandleList := List AzureFileHandle

/-- Embedded from azure_remove (azure_storage_source.cpp lines 426-437):
POSIX remove is not supported for cloud objects; unconditionally returns
ENOTSUP and touches no state. -/
def azure_remove (fs : AzureHandleList) (name : String) (flags : Nat) :
    Int × AzureHandleList :=
  (ENOTSUP, fs)

/-- Embedded from azure_rename (azure_storage_source.cpp lines 439-452):
POSIX rename is not supported for cloud objects; unconditionally returns
ENOTSUP and touches no state. -/
def azure_rename (fs : AzureHandleList) (nameFrom nameTo : String) (flags : Nat) :
    Int × AzureHandleList :=
  (ENOTSUP, fs)

/-- The functions of this extension that can populate a WiredTiger
file-system or file-handle slot. -/
inductive FSFunction where
  | azureObjectList
  | azureObjectListSingle
  | azureObjectListFree
  | azureFileSystemTerminate
  | azureFileSystemExists
  | azureFileOpen
  | azureRemove
  | azureRename
  | azureObjectSize
  | azureFileClose
  | azureFileLock
  | azureFileRead
  | azureFileSize
deriving DecidableEq, Repr

/-- The WT_FILE_SYSTEM slots populated by the extension. -/
structure WTFileSystemVTable where
  fs_directory_list : FSFunction
  fs_directory_list_single : FSFunction
  fs_directory_list_free : FSFunction
  terminate : FSFunction
  fs_exist : FSFunction
  fs_open_file : FSFunction
  fs_remove : FSFunction
  fs_rename : FSFunction
  fs_size : FSFunction
deriving DecidableEq, Repr

/-- Embedded from azure_customize_file_system
(azure_storage_source.cpp lines 154-162): every file-system slot is
populated, with remove and rename wired to the unsupported stubs. -/
def azureFileSystemVTable : WTFileSystemVTable :=
  { fs_directory_list := FSFunction.azureObjectList
    fs_directory_list_single := FSFunction.azureObjectListSingle
    fs_directory_list_free := FSFunction.azureObjectListFree
    terminate := FSFunction.azureFileSystemTerminate
    fs_exist := FSFunction.azureFileSystemExists
    fs_open_file := FSFunction.azureFileOpen
    fs_remove := FSFunction.azureRemove
    fs_rename := FSFunction.azureRename
    fs_size := FSFunction.azureObjectSize }

/-- The WT_FILE_HANDLE slots; none marks a slot set to nullptr. -/
structure WTFileHandleVTable where
  close : Option FSFunction
  fh_advise : Option FSFunction
  fh_extend : Option FSFunction
  fh_extend_nolock : Option FSFunction
  fh_lock : Option FSFunction
  fh_map : Option FSFunction
  fh_map_discard : Option FSFunction
  fh_unmap : Option FSFunction
  fh_read : Option FSFunction
  fh_size : Option FSFunction
  fh_sync : Option FSFunction
  fh_sync_nowait : Option FSFunction
  fh_truncate : Option FSFunction
  fh_write : Option FSFunction
deriving DecidableEq, Repr

/-- Embedded from azure_file_open (azure_storage_source.cpp lines 539-552):
the handle functions defined for read-only access; write-side slots are
nullptr. -/
def azureFileHandleVTable : WTFileHandleVTable :=
  { close := some FSFunction.azureFileClose
    fh_advise := none
    fh_extend := none
    fh_extend_nolock := none
    fh_lock := some FSFunction.azureFileLock
    fh_map := none
    fh_map_discard := none
    fh_unmap := none
    fh_read := some FSFunction.azureFileRead
    fh_size := some FSFunction.azureFileSize
    fh_sync := none
    fh_sync_nowait := none
    fh_truncate := none
    fh_write := none }

/-- The environment azure_flush consults: whether the local source path
exists on disk (std::filesystem::exists), the native file system's
fs_exist return code and answer, and the return code of the put_object
upload to Azure. -/
structure FlushEnv where
  sourceExistsOnDisk : Bool
  fsExistRet : Int
  existsNative : Bool
  putObjectRet : Int
deriving DecidableEq, Repr

/-- Embedded from azure_flush (azure_storage_source.cpp lines 188-228):
returns ENOENT when the source is missing on disk; propagates a failing
native fs_exist; returns ENOENT when the native file system does not have
the file; otherwise attempts put_object, only logging its failure, and
returns ret (which is 0 at that point).  The Bool output records whether
the object was actually uploaded to the bucket. -/
def azure_flush (env : FlushEnv) : Int × Bool :=
  if ¬env.sourceExistsOnDisk then (ENOENT, false)
  else if env.fsExistRet ≠ 0 then (env.fsExistRet, false)
  else if ¬env.existsNative then (ENOENT, false)
  else (env.fsExistRet, decide (env.putObjectRet = 0))

/-- The WT_FS_OPEN_READONLY and WT_FS_OPEN_CREATE bits of the open flags. -/
structure WTOpenFlags where
  readonly : Bool
  create : Bool
deriving DecidableEq, Repr

/-- WT_FS_OPEN_FILE_TYPE. -/
inductive WTFileType where
  | checkpoint
  | data
  | directory
  | log
  | regular
deriving DecidableEq, Repr

/-- Increment the reference count of the first handle with the given name
(std::find_if followed by reference_count++ in azure_file_open). -/
def incRefFirst : AzureHandleList → String → AzureHandleList
  | [], _ => []
  | h :: rest, name =>
    if h.name = name then
      AzureFileHandle.mk h.name (h.reference_count + 1) :: rest
    else h :: incRefFirst rest name

/-- Embedded from azure_file_open (azure_storage_source.cpp lines 479-564).
Arguments beyond the handle-list state: the object name, the file type and
open flags, and the azure_connection object_exists response (return code,
and the existence answer it fills in).  Returns the errno, the new handle
list, and the produced handle (identified by its name), if any. -/
def azure_file_open (handles : AzureHandleList) (name : String)
    (fileType : WTFileType) (flags : WTOpenFlags) (objExistsRet : Int)
    (objExists : Bool) : Int × AzureHandleList × Option String :=
  if flags.readonly = false ∨ flags.create = true then (EINVAL, handles, none)
  else if fileType ≠ WTFileType.data ∧ fileType ≠ WTFileType.regular then
    (EINVAL, handles, none)
  else if objExistsRet ≠ 0 then (objExistsRet, handles, none)
  else if objExists = false then (EINVAL, handles, none)
  else if handles.any (fun h => h.name == name) then
    (0, incRefFirst handles name, some name)
  else (0, handles ++ [AzureFileHandle.mk name 1], some name)

/-- One step of uint32 arithmetic: the wrapping decrement used by
--reference_count. -/
def u32decr (c : Nat) : Nat := (c + 4294967295) % 4294967296

/-- Decrement the reference count of the first handle with the given name;
remove it from the list exactly when the decremented count is zero
(azure_file_close lines 568-589, with the erase-remove idiom). -/
def closeFirst : AzureHandleList → String → AzureHandleList
  | [], _ => []
  | h :: rest, name =>
    if h.name = name then
      if u32decr h.reference_count = 0 then rest
      else AzureFileHandle.mk h.name (u32decr h.reference_count) :: rest
    else h :: closeFirst rest name

/-- Embedded from azure_file_close (azure_storage_source.cpp lines
567-589): decrements the handle's reference count; if other active
instances remain the handle stays; otherwise the handle is removed from
the file system's handle list.  Always returns 0. -/
def azure_file_close (handles : AzureHandleList) (name : String) :
    Int × AzureHandleList :=
  (0, closeFirst handles name)

theorem u32decr_eq {c : Nat} (h1 : 1 ≤ c) (h2 : c < 4294967296) :
    u32decr c = c - 1 := by
  unfold u32decr
  have h3 : c + 4294967295 = (c - 1) + 4294967296 := by omega
  rw [h3, Nat.add_mod_right, Nat.mod_eq_of_lt (by omega)]

theorem incRefFirst_map_name (l : AzureHandleList) (name : String) :
    (incRefFirst l name).map AzureFileHandle.name = l.map AzureFileHandle.name := by
  induction l with
  | nil => rfl
  | cons h rest ih =>
    by_cases hh : h.name = name
    · simp [incRefFirst, hh]
    · simp [incRefFirst, hh, ih]

theorem mem_incRefFirst {l : AzureHandleList} {name : String} {c : Nat}
    (hnodup : (l.map AzureFileHandle.name).Nodup)
    (hmem : AzureFileHandle.mk name c ∈ l) :
    AzureFileHandle.mk name (c + 1) ∈ incRefFirst l name := by
  induction l with
  | nil => simp at hmem
  | cons h rest ih =>
    simp only [List.map_cons, List.nodup_cons] at hnodup
    rcases List.mem_cons.mp hmem with heq | hmem2
    · rw [← heq]
      simp [incRefFirst]
    · by_cases hh : h.name = name
      · exfalso
        apply hnodup.1
        rw [hh]
        exact List.mem_map_of_mem AzureFileHandle.name hmem2
      · simp only [incRefFirst, if_neg hh]
        exact List.mem_cons_of_mem h (ih hnodup.2 hmem2)

theorem any_name_of_mem {l : AzureHandleList} {name : String} {c : Nat}
    (hmem : AzureFileHandle.mk name c ∈ l) :
    l.any (fun h => h.name == name) = true :=
  List.any_eq_true.mpr ⟨AzureFileHandle.mk name c, hmem, by simp⟩

theorem name_not_mem_of_any_false {l : AzureHandleList} {name : String}
    (hfalse : l.any (fun h => h.name == name) = false) :
    name ∉ l.map AzureFileHandle.name := by
  intro hmem
  obtain ⟨h, hh, hname⟩ := List.mem_map.mp hmem
  have hcontra : l.any (fun x => x.name == name) = true :=
    List.any_eq_true.mpr ⟨h, hh, beq_iff_eq.mpr hname⟩
  rw [hfalse] at hcontra
  exact Bool.false_ne_true hcontra

theorem closeFirst_not_mem {l : AzureHandleList} {name : String}
    (hnodup : (l.map AzureFileHandle.name).Nodup)
    (hmem : AzureFileHandle.mk name 1 ∈ l) :
    name ∉ (closeFirst l name).map AzureFileHandle.name := by
  induction l with
  | nil => simp at hmem
  | cons h rest ih =>
    simp only [List.map_cons, List.nodup_cons] at hnodup
    rcases List.mem_cons.mp hmem with heq | hmem2
    · rw [← heq]
      have hz : u32decr 1 = 0 := by decide
      simp only [closeFirst, if_pos rfl, hz, if_pos rfl]
      rw [← heq] at hnodup
      exact hnodup.1
    · by_cases hh : h.name = name
      · exfalso
        apply hnodup.1
        rw [hh]
        exact List.mem_map_of_mem AzureFileHandle.name hmem2
      · simp only [closeFirst, if_neg hh, List.map_cons, List.mem_cons]
        rintro (hcontra | hcontra)
        · exact hh hcontra.symm
        · exact ih hnodup.2 hmem2 hcontra

theorem closeFirst_mem_decr {l : AzureHandleList} {name : String} {c : Nat}
    (hnodup : (l.map AzureFileHandle.name).Nodup)
    (hmem : AzureFileHandle.mk name c ∈ l) (h2 : 2 ≤ c) (h3 : c < 4294967296) :
    AzureFileHandle.mk name (c - 1) ∈ closeFirst l name ∧
      (closeFirst l name).map AzureFileHandle.name = l.map AzureFileHandle.name := by
  induction l with
  | nil => simp at hmem
  | cons h rest ih =>
    simp only [List.map_cons, List.nodup_cons] at hnodup
    rcases List.mem_cons.mp hmem with heq | hmem2
    · rw [← heq]
      have hd : u32decr c = c - 1 := u32decr_eq (by omega) h3
      have hnz : ¬(c - 1 = 0) := by omega
      constructor
      · simp [closeFirst, hd, hnz]
      · simp [closeFirst, hd, hnz]
    · by_cases hh : h.name = name
      · exfalso
        apply hnodup.1
        rw [hh]
        exact List.mem_map_of_mem AzureFileHandle.name hmem2
      · have hrest := ih hnodup.2 hmem2
        simp only [closeFirst, if_neg hh, List.map_cons, List.mem_cons]
        exact ⟨Or.inr hrest.1, by rw [hrest.2]⟩

theorem azure_file_open_reduce (handles : AzureHandleList) (name : String)
    (ft : WTFileType) (fl : WTOpenFlags) (hro : fl.readonly = true)
    (hcr : fl.create = false)
    (hft : ft = WTFileType.data ∨ ft = WTFileType.regular) :
    azure_file_open handles name ft fl 0 true =
      if handles.any (fun h => h.name == name) then
        (0, incRefFirst handles name, some name)
      else (0, handles ++ [AzureFileHandle.mk name 1], some name) := by
  rcases hft with rfl | rfl <;> simp [azure_file_open, hro, hcr]

theorem azure_file_open_any_true (handles : AzureHandleList) (name : String)
    (ft : WTFileType) (fl : WTOpenFlags) (hro : fl.readonly = true)
    (hcr : fl.create = false)
    (hft : ft = WTFileType.data ∨ ft = WTFileType.regular)
    (hA : handles.any (fun h => h.name == name) = true) :
    azure_file_open handles name ft fl 0 true
      = (0, incRefFirst handles name, some name) := by
  rw [azure_file_open_reduce handles name ft fl hro hcr hft, if_pos hA]

theorem azure_file_open_any_false (handles : AzureHandleList) (name : String)
    (ft : WTFileType) (fl : WTOpenFlags) (hro : fl.readonly = true)
    (hcr : fl.create = false)
    (hft : ft = WTFileType.data ∨ ft = WTFileType.regular)
    (hA : handles.any (fun h => h.name == name) = false) :
    azure_file_open handles name ft fl 0 true
      = (0, handles ++ [AzureFileHandle.mk name 1], some name) := by
  rw [azure_file_open_reduce handles name ft fl hro hcr hft, if_neg]
  simp [hA]

end AzureStore

namespace MongoOpt

/-- A concrete phase-implementation instance over Nat trees, used to
evaluate the pipeline model at concrete inputs. -/
def sampleImpls : PhaseImpls Nat :=
  { structural := fun _ n => n + 1
    physicalSearch := fun n => if n = 5 then none else some (n * 10) }

/-- C1: optimize and optimizeNoAssert have the identical effect on the
tree when planning succeeds; when the pipeline cannot find any physical
plan satisfying the required top-level properties, optimizeNoAssert
returns false while optimize aborts, and this planning failure (the
physical search returning no plan) is the sole condition under which
optimizeNoAssert returns false. -/
theorem optimizeNoAssert_failure_spec {T : Type} (impls : PhaseImpls T)
    (phaseSet : List OptPhase) (t : T) :
    ((optimizeNoAssert impls phaseSet t).1 = true →
      optimize impls phaseSet t =
        OptimizeOutcome.completed (optimizeNoAssert impls phaseSet t).2) ∧
    ((optimizeNoAssert impls phaseSet t).1 = false →
      optimize impls phaseSet t = OptimizeOutcome.aborted) ∧
    ((optimizeNoAssert impls phaseSet t).1 = false ↔
      (OptPhase.MemoImplementationPhase ∈ phasesToRun phaseSet ∧
        impls.physicalSearch
          (runStructural impls (prePhysicalPhases phaseSet) t) = none)) := by
  have hrun := runPhaseList_none_iff impls (phasesToRun phaseSet) t
    (count_impl_phasesToRun phaseSet)
  refine ⟨?_, ?_, ?_⟩
  · intro h
    rcases hE : optimizeNoAssert impls phaseSet t with ⟨b, t2⟩
    rw [hE] at h
    simp only at h
    subst h
    simp [optimize, hE]
  · intro h
    rcases hE : optimizeNoAssert impls phaseSet t with ⟨b, t2⟩
    rw [hE] at h
    simp only at h
    subst h
    simp [optimize, hE]
  · constructor
    · intro hfalse
      have hnone : (runPhaseList impls (phasesToRun phaseSet) t).2 = none := by
        cases hS : (runPhaseList impls (phasesToRun phaseSet) t).2 with
        | none => rfl
        | some t2 => simp [optimizeNoAssert, hS] at hfalse
      have hres := hrun.mp hnone
      exact ⟨hres.1, by simpa [prePhysicalPhases] using hres.2⟩
    · rintro ⟨hmem, hsearch⟩
      have hnone : (runPhaseList impls (phasesToRun phaseSet) t).2 = none :=
        hrun.mpr ⟨hmem, by simpa [prePhysicalPhases] using hsearch⟩
      simp [optimizeNoAssert, hnone]

/-- Witness for C1: with the full phase set and a physical search that
succeeds on the intermediate tree, optimize completes with exactly the
tree optimizeNoAssert produces. -/
theorem optimizeNoAssert_failure_spec_witness :
    optimize sampleImpls allPhasesInOrder 3 = OptimizeOutcome.completed 72 := by
  have h := (optimizeNoAssert_failure_spec sampleImpls allPhasesInOrder 3).1
    (by decide)
  have h2 : (optimizeNoAssert sampleImpls allPhasesInOrder 3).2 = 72 := by decide
  rw [h2] at h
  exact h

theorem runPhaseList_fst_sublist {T : Type} (impls : PhaseImpls T)
    (phases : List OptPhase) (t : T) :
    List.Sublist (runPhaseList impls phases t).1 phases := by
  induction phases generalizing t with
  | nil => simp [runPhaseList]
  | cons p rest ih =>
    cases happ : applyPhase impls p t with
    | none =>
      simp only [runPhaseList, happ]
      exact (List.nil_sublist rest).cons₂ p
    | some t2 =>
      simp only [runPhaseList, happ]
      exact (ih t2).cons₂ p

theorem runPhaseList_fst_of_success {T : Type} (impls : PhaseImpls T)
    (phases : List OptPhase) (t : T)
    (h : (runPhaseList impls phases t).2.isSome = true) :
    (runPhaseList impls phases t).1 = phases := by
  induction phases generalizing t with
  | nil => rfl
  | cons p rest ih =>
    cases happ : applyPhase impls p t with
    | none => simp [runPhaseList, happ] at h
    | some t2 =>
      simp only [runPhaseList, happ] at h ⊢
      rw [ih t2 h]

/-- C3: the optimizer defines exactly seven phases; for any configured
phase set, the phases actually executed form a subsequence of the fixed
order ConstEvalPre, PathFuse, MemoSubstitutionPhase, MemoExplorationPhase,
MemoImplementationPhase, PathLower, ConstEvalPost; a phase absent from the
configured set is never executed, and on a completed run the executed
phases are exactly those present in the set — regardless of how the
configuration was chosen. -/
theorem phase_fixed_order_spec {T : Type} (impls : PhaseImpls T)
    (phaseSet : List OptPhase) (t : T) :
    allPhasesInOrder.length = 7 ∧
    allPhasesInOrder.Nodup ∧
    (∀ p : OptPhase, p ∈ allPhasesInOrder) ∧
    List.Sublist (runPhaseList impls (phasesToRun phaseSet) t).1 allPhasesInOrder ∧
    (∀ p : OptPhase, p ∉ phaseSet →
      p ∉ (runPhaseList impls (phasesToRun phaseSet) t).1) ∧
    ((optimizeNoAssert impls phaseSet t).1 = true →
      ∀ p : OptPhase,
        (p ∈ (runPhaseList impls (phasesToRun phaseSet) t).1 ↔ p ∈ phaseSet)) := by
  have hall : ∀ p : OptPhase, p ∈ allPhasesInOrder := fun p => by
    cases p <;> decide
  have hsub1 : List.Sublist (runPhaseList impls (phasesToRun phaseSet) t).1
      (phasesToRun phaseSet) := runPhaseList_fst_sublist impls _ t
  have hsub2 : List.Sublist (phasesToRun phaseSet) allPhasesInOrder :=
    List.filter_sublist allPhasesInOrder
  refine ⟨by decide, by decide, hall, hsub1.trans hsub2, ?_, ?_⟩
  · intro p hp hmem
    have hmem2 : p ∈ phasesToRun phaseSet := hsub1.subset hmem
    have := (List.mem_filter.mp hmem2).2
    simp at this
    exact hp this
  · intro hsuccess p
    have hsome : (runPhaseList impls (phasesToRun phaseSet) t).2.isSome = true := by
      cases hS : (runPhaseList impls (phasesToRun phaseSet) t).2 with
      | none => simp [optimizeNoAssert, hS] at hsuccess
      | some t2 => simp
    rw [runPhaseList_fst_of_success impls _ t hsome]
    simp [phasesToRun, List.mem_filter, hall p]

/-- Witness for C3: with phase set {ConstEvalPre, PathFuse} the run
executes exactly those two phases; PathLower (absent from the set) is
never executed. -/
theorem phase_fixed_order_spec_witness :
    OptPhase.PathLower ∉
      (runPhaseList sampleImpls
        (phasesToRun [OptPhase.ConstEvalPre, OptPhase.PathFuse]) 3).1 :=
  (phase_fixed_order_spec sampleImpls
    [OptPhase.ConstEvalPre, OptPhase.PathFuse] 3).2.2.2.2.1
    OptPhase.PathLower (by decide)

/-- C4: inserting two structurally identical logical expressions yields
the same group id without adding a duplicate member (inserting an
expression again returns the same id and leaves the memo unchanged);
inserting two structurally distinct expressions yields distinct group
ids. -/
theorem memoInsert_dedup_spec (m : List LogicalExpr) (e e2 : LogicalExpr) :
    (memoInsert (memoInsert m e).2 e = ((memoInsert m e).1, (memoInsert m e).2)) ∧
    (e ≠ e2 → (memoInsert (memoInsert m e).2 e2).1 ≠ (memoInsert m e).1) := by
  constructor
  · cases hF : findGroup m e with
    | some i => simp [memoInsert, hF]
    | none =>
      have hA := findGroup_append_self hF
      simp [memoInsert, hF, hA]
  · intro hne
    have hget1 : (memoInsert m e).2.get? (memoInsert m e).1 = some e := by
      cases hF : findGroup m e with
      | some i =>
        simp only [memoInsert, hF]
        exact findGroup_eq_some hF
      | none =>
        simp only [memoInsert, hF]
        simp
    cases hF2 : findGroup (memoInsert m e).2 e2 with
    | some j =>
      intro hcontra
      have hget2 : (memoInsert m e).2.get? j = some e2 := findGroup_eq_some hF2
      rw [memoInsert, hF2] at hcontra
      simp only at hcontra
      rw [hcontra] at hget2
      rw [hget1] at hget2
      exact hne (Option.some.inj hget2)
    | none =>
      intro hcontra
      rw [memoInsert, hF2] at hcontra
      simp only at hcontra
      have hlt : (memoInsert m e).1 < (memoInsert m e).2.length :=
        List.get?_eq_some.mp hget1 |>.1
      omega

/-- Witness for C4: two distinct leaf expressions inserted into the empty
memo receive distinct group ids. -/
theorem memoInsert_dedup_spec_witness :
    (memoInsert (memoInsert [] (LogicalExpr.leaf 1)).2 (LogicalExpr.leaf 2)).1 ≠
      (memoInsert [] (LogicalExpr.leaf 1)).1 :=
  (memoInsert_dedup_spec [] (LogicalExpr.leaf 1) (LogicalExpr.leaf 2)).2 (by decide)

/-- Counterexample for C2: the claim that copy construction and copy
assignment are disabled while move/transfer semantics are available does
not hold of the declared special members: the move assignment operator is
deleted too (opt_phase_manager.h line 95), so not every move operation is
available. -/
theorem optPhaseManager_not_fully_movable :
    ¬(optPhaseManagerSpecialMembers.copyConstructor = SpecialMemberStatus.deleted ∧
      optPhaseManagerSpecialMembers.copyAssignment = SpecialMemberStatus.deleted ∧
      optPhaseManagerSpecialMembers.moveConstructor ≠ SpecialMemberStatus.deleted ∧
      optPhaseManagerSpecialMembers.moveAssignment ≠ SpecialMemberStatus.deleted) := by
  decide

/-- C2 (amended): copy construction and copy assignment are disabled
(deleted); the move constructor is available (defaulted), so a run can be
relocated by move construction; but the move assignment operator is
deleted as well — the type is move-constructible, not move-assignable. -/
theorem optPhaseManager_move_construct_only :
    optPhaseManagerSpecialMembers.copyConstructor = SpecialMemberStatus.deleted ∧
    optPhaseManagerSpecialMembers.copyAssignment = SpecialMemberStatus.deleted ∧
    optPhaseManagerSpecialMembers.moveConstructor = SpecialMemberStatus.defaulted ∧
    optPhaseManagerSpecialMembers.moveAssignment = SpecialMemberStatus.deleted := by
  decide

/-- C7: the prefix/name generator is borrowed, not owned: prefixId is the
only constructor parameter taken by reference, the instance's _prefixId
member holds a reference (never a copy), and minting a synthetic name
mutates only the caller's shared counter (incrementing it by one) and no
other caller-visible state. -/
theorem prefixId_borrowed_spec :
    ((optPhaseManagerCtorParams.filter
        (fun p => p.passing = ParamPassing.byReference)).map CtorParam.pname
      = ["prefixId"]) ∧
    optPhaseManagerPrefixIdMember = ParamPassing.byReference ∧
    (∀ (A : Type) (s : CallerState A) (base : String),
      (mintName s base).2.otherState = s.otherState ∧
      (mintName s base).2.prefixIdCounter = s.prefixIdCounter + 1) := by
  refine ⟨by decide, rfl, fun A s base => ⟨rfl, rfl⟩⟩

end MongoOpt

namespace MongoCatalog

/-- C5: the yield-restore callable fetches the collection by UUID after
re-validating the collection lock; it returns null exactly when the
collection was dropped during the yield (catalog lookup by UUID fails) or
its namespace no longer equals the namespace captured at construction
(rename during yield); in the non-null case the returned collection is
the one fetched by UUID, its namespace matches, the capped snapshot is
re-established exactly when the collection uses capped snapshots, and the
read source is re-checked before returning. -/
theorem yieldRestore_null_iff_dropped_or_renamed (opCtx : OperationContext)
    (nss : String) (uuid : Nat) (hnss : nss.isEmpty = false)
    (hlock : opCtx.isCollectionLockedForModeIS nss = true) :
    ((∃ eff, lockedCollectionYieldRestoreCall opCtx nss uuid
        = Except.ok (none, eff)) ↔
      (opCtx.lookupCollectionByUUIDForRead uuid = none ∨
        ∃ c, opCtx.lookupCollectionByUUIDForRead uuid = some c ∧ c.ns ≠ nss)) ∧
    (∀ c eff, lockedCollectionYieldRestoreCall opCtx nss uuid
        = Except.ok (some c, eff) →
      opCtx.lookupCollectionByUUIDForRead uuid = some c ∧ c.ns = nss ∧
      eff.establishedCappedSnapshot = c.usesCappedSnapshots ∧
      eff.checkedReadSource = true) := by
  cases hL : opCtx.lookupCollectionByUUIDForRead uuid with
  | none =>
    constructor
    · simp [lockedCollectionYieldRestoreCall, hnss, hlock, hL]
    · intro c eff hcall
      simp [lockedCollectionYieldRestoreCall, hnss, hlock, hL] at hcall
  | some c0 =>
    by_cases hns : c0.ns = nss
    · constructor
      · simp [lockedCollectionYieldRestoreCall, hnss, hlock, hL, hns]
      · intro c eff hcall
        simp [lockedCollectionYieldRestoreCall, hnss, hlock, hL, hns] at hcall
        rcases hcall with ⟨hc, heff⟩
        subst hc
        subst heff
        exact ⟨rfl, hns, rfl, rfl⟩
    · constructor
      · simp [lockedCollectionYieldRestoreCall, hnss, hlock, hL, hns]
      · intro c eff hcall
        simp [lockedCollectionYieldRestoreCall, hnss, hlock, hL, hns] at hcall

/-- A concrete operation context: every namespace lock is held; UUID 1
maps to a capped collection, every other UUID to nothing (dropped). -/
def sampleOpCtx : OperationContext :=
  { isCollectionLockedForModeIS := fun _ => true
    lookupCollectionByUUIDForRead := fun u =>
      if u = 1 then some (Collection.mk "db.caps" true) else none }

/-- Witness for C5: against sampleOpCtx, restoring UUID 2 (dropped during
yield) returns a null collection. -/
theorem yieldRestore_null_iff_dropped_or_renamed_witness :
    ∃ eff, lockedCollectionYieldRestoreCall sampleOpCtx "db.caps" 2
      = Except.ok (none, eff) :=
  (yieldRestore_null_iff_dropped_or_renamed sampleOpCtx "db.caps" 2
    rfl rfl).1.mpr (Or.inl (by decide))

end MongoCatalog

namespace AzureStore

/-- C6: azure_remove and azure_rename unconditionally return ENOTSUP
(which is not success) and change no state, while the file system's
list/open/size/exists slots and the handle's read slot are provided by
the extension, with remove and rename wired to the unsupported stubs. -/
theorem azure_remove_rename_unsupported :
    (∀ (fs : AzureHandleList) (name : String) (flags : Nat),
      azure_remove fs name flags = (ENOTSUP, fs)) ∧
    (∀ (fs : AzureHandleList) (nameFrom nameTo : String) (flags : Nat),
      azure_rename fs nameFrom nameTo flags = (ENOTSUP, fs)) ∧
    ENOTSUP ≠ 0 ∧
    azureFileSystemVTable.fs_remove = FSFunction.azureRemove ∧
    azureFileSystemVTable.fs_rename = FSFunction.azureRename ∧
    azureFileSystemVTable.fs_directory_list = FSFunction.azureObjectList ∧
    azureFileSystemVTable.fs_directory_list_single
      = FSFunction.azureObjectListSingle ∧
    azureFileSystemVTable.fs_open_file = FSFunction.azureFileOpen ∧
    azureFileSystemVTable.fs_size = FSFunction.azureObjectSize ∧
    azureFileSystemVTable.fs_exist = FSFunction.azureFileSystemExists ∧
    azureFileHandleVTable.fh_read = some FSFunction.azureFileRead := by
  exact ⟨fun _ _ _ => rfl, fun _ _ _ _ => rfl, by decide, rfl, rfl, rfl, rfl,
    rfl, rfl, rfl, rfl⟩

/-- C8: whenever the local source file exists both on disk and in the
native file system, azure_flush returns 0, and the object reached the
bucket only if put_object succeeded — a failed upload is merely logged,
so the zero return does not imply the object reached the bucket. -/
theorem azure_flush_zero_despite_failed_upload (env : FlushEnv)
    (h1 : env.sourceExistsOnDisk = true) (h2 : env.fsExistRet = 0)
    (h3 : env.existsNative = true) :
    (azure_flush env).1 = 0 ∧
    ((azure_flush env).2 = true ↔ env.putObjectRet = 0) := by
  constructor
  · simp [azure_flush, h1, h2, h3]
  · simp [azure_flush, h1, h2, h3]

/-- Witness for C8: with a put_object failure (return code 1), azure_flush
still returns 0 while the object never reached the bucket. -/
theorem azure_flush_zero_despite_failed_upload_witness :
    (azure_flush (FlushEnv.mk true 0 true 1)).1 = 0 ∧
    (azure_flush (FlushEnv.mk true 0 true 1)).2 = false :=
  ⟨(azure_flush_zero_despite_failed_upload (FlushEnv.mk true 0 true 1)
      rfl rfl rfl).1,
    by decide⟩

/-- C9: per file system, at most one handle exists per file name.  When
the handle names are distinct, a successful azure_file_open keeps them
distinct; opening a name that already has an open handle returns that same
handle (by name) with its reference count incremented, adding no new
handle; and azure_file_close removes the handle from the handle list
exactly when the decremented reference count reaches zero (count 1 before
the close), merely decrementing it otherwise. -/
theorem azure_one_handle_per_name_spec (handles : AzureHandleList)
    (name : String) (ft : WTFileType) (fl : WTOpenFlags)
    (hro : fl.readonly = true) (hcr : fl.create = false)
    (hft : ft = WTFileType.data ∨ ft = WTFileType.regular)
    (hnodup : (handles.map AzureFileHandle.name).Nodup) :
    ((azure_file_open handles name ft fl 0 true).2.1.map
        AzureFileHandle.name).Nodup ∧
    (∀ c : Nat, AzureFileHandle.mk name c ∈ handles →
      (azure_file_open handles name ft fl 0 true).2.2 = some name ∧
      (azure_file_open handles name ft fl 0 true).2.1.map AzureFileHandle.name
        = handles.map AzureFileHandle.name ∧
      AzureFileHandle.mk name (c + 1)
        ∈ (azure_file_open handles name ft fl 0 true).2.1) ∧
    (∀ c : Nat, AzureFileHandle.mk name c ∈ handles → 1 ≤ c →
        c < 4294967296 →
      ((c = 1 →
          name ∉ (azure_file_close handles name).2.map AzureFileHandle.name) ∧
       (2 ≤ c →
          AzureFileHandle.mk name (c - 1) ∈ (azure_file_close handles name).2 ∧
          (azure_file_close handles name).2.map AzureFileHandle.name
            = handles.map AzureFileHandle.name))) := by
  refine ⟨?_, ?_, ?_⟩
  · cases hA : handles.any (fun h => h.name == name) with
    | true =>
      rw [azure_file_open_any_true handles name ft fl hro hcr hft hA]
      rw [show ((0 : Int), incRefFirst handles name, some name).2.1
          = incRefFirst handles name from rfl]
      rw [incRefFirst_map_name]
      exact hnodup
    | false =>
      have hnm := name_not_mem_of_any_false hA
      rw [azure_file_open_any_false handles name ft fl hro hcr hft hA]
      rw [show ((0 : Int), handles ++ [AzureFileHandle.mk name 1], some name).2.1
          = handles ++ [AzureFileHandle.mk name 1] from rfl]
      rw [List.map_append]
      refine List.Nodup.append hnodup (by simp) ?_
      intro x hx hx2
      simp only [List.map_cons, List.map_nil, List.mem_singleton] at hx2
      subst hx2
      exact hnm hx
  · intro c hcmem
    have hA : handles.any (fun h => h.name == name) = true := any_name_of_mem hcmem
    rw [azure_file_open_any_true handles name ft fl hro hcr hft hA]
    exact ⟨rfl, incRefFirst_map_name handles name, mem_incRefFirst hnodup hcmem⟩
  · intro c hcmem h1 h2
    constructor
    · intro hc1
      subst hc1
      simp only [azure_file_close]
      exact closeFirst_not_mem hnodup hcmem
    · intro hc2
      simp only [azure_file_close]
      exact closeFirst_mem_decr hnodup hcmem hc2 h2

/-- Witness for C9: opening "a" (already open with reference count 2)
yields the same handle with count 3 and no new list entry. -/
theorem azure_one_handle_per_name_spec_witness :
    AzureFileHandle.mk "a" 3 ∈
      (azure_file_open [AzureFileHandle.mk "a" 2, AzureFileHandle.mk "b" 1]
        "a" WTFileType.data (WTOpenFlags.mk true false) 0 true).2.1 :=
  ((azure_one_handle_per_name_spec
      [AzureFileHandle.mk "a" 2, AzureFileHandle.mk "b" 1] "a"
      WTFileType.data (WTOpenFlags.mk true false) rfl rfl (Or.inl rfl)
      (by decide)).2.1 2 (by decide)).2.2

/-- C10: with a successful object-existence check, azure_file_open returns
EINVAL and produces no file handle (leaving the handle list untouched)
whenever the open flags do not include read-only access, or include
create, or the file type is neither data nor regular, or the named object
does not exist in Azure; and a handle is produced only when all four
conditions hold (for any object-existence return code). -/
theorem azure_file_open_einval_spec (handles : AzureHandleList) (name : String)
    (ft : WTFileType) (fl : WTOpenFlags) (oe : Bool) :
    ((fl.readonly = true ∧ fl.create = false ∧
        (ft = WTFileType.data ∨ ft = WTFileType.regular) ∧ oe = true) →
      (azure_file_open handles name ft fl 0 oe).1 = 0 ∧
      (azure_file_open handles name ft fl 0 oe).2.2 = some name) ∧
    (¬(fl.readonly = true ∧ fl.create = false ∧
        (ft = WTFileType.data ∨ ft = WTFileType.regular) ∧ oe = true) →
      azure_file_open handles name ft fl 0 oe = (EINVAL, handles, none)) ∧
    (∀ (oer : Int) (h : String),
      (azure_file_open handles name ft fl oer oe).2.2 = some h →
      (fl.readonly = true ∧ fl.create = false ∧
        (ft = WTFileType.data ∨ ft = WTFileType.regular) ∧ oe = true)) := by
  refine ⟨?_, ?_, ?_⟩
  · rintro ⟨h1, h2, h3, rfl⟩
    rw [azure_file_open_reduce handles name ft fl h1 h2 h3]
    cases hA : handles.any (fun h => h.name == name) with
    | true => simp [hA]
    | false => simp [hA]
  · intro hnc
    rcases fl with ⟨ro, cr⟩
    cases ro <;> cases cr <;> cases oe <;> cases ft <;>
      simp_all [azure_file_open]
  · intro oer h hsome
    rcases fl with ⟨ro, cr⟩
    cases ro <;> cases cr <;> cases oe <;> cases ft <;>
      first
      | exact ⟨rfl, rfl, Or.inl rfl, rfl⟩
      | exact ⟨rfl, rfl, Or.inr rfl, rfl⟩
      | (rcases eq_or_ne oer 0 with hoer | hoer <;>
          simp [azure_file_open, hoer] at hsome)

/-- Witness for C10: opening without read-only access fails with EINVAL
and produces no handle. -/
theorem azure_file_open_einval_spec_witness :
    azure_file_open [] "x" WTFileType.data (WTOpenFlags.mk false false) 0 true
      = (EINVAL, [], none) :=
  (azure_file_open_einval_spec [] "x" WTFileType.data
    (WTOpenFlags.mk false false) true).2.1 (by decide)

end AzureStore
